import Mathlib

/-!
Verification of the robust-QA bootstrap statistics engine.

The engine (src/src/compute_robust.rs and src/analysis/src/metrics/precision.rs)
estimates, for a grid of quality thresholds, the precision achievable at a
target false-negative rate, via bootstrap resampling.  We embed the numeric
code over ℚ (exact arithmetic in place of f64; f64 rounding is out of scope),
model the pseudo-random generator as an abstract per-seed stream of naturals,
model Rust panics by an explicit result type, and model the f64 NaN sentinel
by an Option.
-/

namespace RobustQA

/-- Outcome of a Rust computation: a normal return value, or a process abort
through a panic carrying the panic message. -/
inductive RustResult (α : Type) where
  | ok (v : α)
  | panicked (msg : String)
deriving DecidableEq

/-- The count `n_y_high` computed inside the per-threshold loop of both
confusion-count variants: `yb.iter().filter(|&&v| v >= thy && v < 1.0).count()`
(src/src/compute_robust.rs line 26, src/analysis/src/metrics/precision.rs
line 17).  The filter mentions only `yb` and `thy`, never the candidate
threshold `th`. -/
def countHigh (yb : List ℚ) (thy : ℚ) : Nat :=
  yb.countP (fun v => decide (thy ≤ v ∧ v < 1))

/-- The true-positive count of `compute_precision_fnr`:
`xb.iter().zip(yb.iter()).filter(|(&xi, &yi)| xi >= th && yi >= thy).count()`. -/
def tpCount (xb yb : List ℚ) (thy th : ℚ) : Nat :=
  (xb.zip yb).countP (fun p => decide (th ≤ p.1 ∧ thy ≤ p.2))

/-- The false-negative count of `compute_precision_fnr`:
`filter(|(&xi, &yi)| xi >= th && yi < thy).count()`. -/
def fnCount (xb yb : List ℚ) (thy th : ℚ) : Nat :=
  (xb.zip yb).countP (fun p => decide (th ≤ p.1 ∧ p.2 < thy))

/-- The true-positive count of `compute_tp_fn` (analysis variant), which
additionally excludes samples with `yi >= 1.0`:
`filter(|(&xi, &yi)| xi >= th && yi >= thy && yi < 1.0).count()`. -/
def tpCountExcl (xb yb : List ℚ) (thy th : ℚ) : Nat :=
  (xb.zip yb).countP (fun p => decide (th ≤ p.1 ∧ thy ≤ p.2 ∧ p.2 < 1))

/-- The false-negative count of `compute_tp_fn` (analysis variant):
`filter(|(&xi, &yi)| xi >= th && yi < thy && yi < 1.0).count()`. -/
def fnCountExcl (xb yb : List ℚ) (thy th : ℚ) : Nat :=
  (xb.zip yb).countP (fun p => decide (th ≤ p.1 ∧ p.2 < thy ∧ p.2 < 1))

/-- `compute_precision_fnr` from src/src/compute_robust.rs lines 15-46: for
each candidate threshold `th` of the quantile grid, push the saturation
constants `(1.0, 1.0)` when `n_y_high == 0`, else the two count ratios with
denominator `yb.len()`. -/
def compute_precision_fnr (xb yb : List ℚ) (thy : ℚ) (quantiles : List ℚ) :
    List ℚ × List ℚ :=
  (quantiles.map (fun th =>
      if countHigh yb thy = 0 then 1
      else (tpCount xb yb thy th : ℚ) / (yb.length : ℚ)),
   quantiles.map (fun th =>
      if countHigh yb thy = 0 then 1
      else (fnCount xb yb thy th : ℚ) / (yb.length : ℚ)))

/-- `compute_tp_fn` from src/analysis/src/metrics/precision.rs lines 7-29:
same loop shape, but saturation pushes `(0.0, 0.0)` and both counts carry the
extra `yi < 1.0` exclusion. -/
def compute_tp_fn (xb yb : List ℚ) (thy : ℚ) (quantiles : List ℚ) :
    List ℚ × List ℚ :=
  (quantiles.map (fun th =>
      if countHigh yb thy = 0 then 0
      else (tpCountExcl xb yb thy th : ℚ) / (yb.length : ℚ)),
   quantiles.map (fun th =>
      if countHigh yb thy = 0 then 0
      else (fnCountExcl xb yb thy th : ℚ) / (yb.length : ℚ)))

example : countHigh [0, 1] 0 = 1 := by decide

example : compute_precision_fnr [1, 1] [0, 1] 0 [0] = ([1], [0]) := by
  simp [compute_precision_fnr, tpCount, fnCount, countHigh]

example : compute_tp_fn [1, 1] [0, 1] 0 [0] = ([1/2], [0]) := by
  simp [compute_tp_fn, tpCountExcl, fnCountExcl, countHigh]

theorem countP_le_of_imp {α : Type} (p q : α → Bool) (l : List α)
    (h : ∀ a, p a = true → q a = true) : l.countP p ≤ l.countP q := by
  induction l with
  | nil => simp
  | cons a l ih =>
    rw [List.countP_cons, List.countP_cons]
    have hif : (if p a then 1 else 0) ≤ (if q a then 1 else 0) := by
      by_cases hp : p a = true
      · simp [hp, h a hp]
      · simp [hp]
    omega

/-- C7: for a fixed resample `(xb, yb)` and fixed quality threshold `thy`, the
confusion counts of both evaluator variants are monotonically non-increasing in
the candidate threshold: `th1 ≤ th2` implies the true-positive and
false-negative counts at `th2` are at most those at `th1`. -/
theorem confusion_counts_antitone (xb yb : List ℚ) (thy th1 th2 : ℚ)
    (h : th1 ≤ th2) :
    tpCount xb yb thy th2 ≤ tpCount xb yb thy th1 ∧
    fnCount xb yb thy th2 ≤ fnCount xb yb thy th1 ∧
    tpCountExcl xb yb thy th2 ≤ tpCountExcl xb yb thy th1 ∧
    fnCountExcl xb yb thy th2 ≤ fnCountExcl xb yb thy th1 := by
  refine ⟨?_, ?_, ?_, ?_⟩ <;>
    · apply countP_le_of_imp
      intro a ha
      simp only [decide_eq_true_eq] at ha ⊢
      exact ⟨le_trans h ha.1, ha.2⟩

/-- Witness for C7 at a concrete input. -/
theorem confusion_counts_antitone_witness :
    (0 : ℚ) ≤ 1 ∧
    (tpCount [1, 2] [0, 1] 0 1 ≤ tpCount [1, 2] [0, 1] 0 0 ∧
     fnCount [1, 2] [0, 1] 0 1 ≤ fnCount [1, 2] [0, 1] 0 0 ∧
     tpCountExcl [1, 2] [0, 1] 0 1 ≤ tpCountExcl [1, 2] [0, 1] 0 0 ∧
     fnCountExcl [1, 2] [0, 1] 0 1 ≤ fnCountExcl [1, 2] [0, 1] 0 0) :=
  ⟨by decide, confusion_counts_antitone [1, 2] [0, 1] 0 0 1 (by decide)⟩

/-- C9: the branch condition `n_y_high == 0` of both confusion-count variants
mentions only `yb` and `thy`, never the candidate threshold, so over the whole
quantile grid each evaluator either pushes the saturation constants at every
position or computes the count ratios at every position. -/
theorem saturation_all_or_none (xb yb : List ℚ) (thy : ℚ) (qs : List ℚ) :
    (compute_precision_fnr xb yb thy qs =
       (qs.map (fun _ => 1), qs.map (fun _ => 1)) ∧
     compute_tp_fn xb yb thy qs =
       (qs.map (fun _ => 0), qs.map (fun _ => 0))) ∨
    (countHigh yb thy ≠ 0 ∧
     compute_precision_fnr xb yb thy qs =
       (qs.map (fun th => (tpCount xb yb thy th : ℚ) / (yb.length : ℚ)),
        qs.map (fun th => (fnCount xb yb thy th : ℚ) / (yb.length : ℚ))) ∧
     compute_tp_fn xb yb thy qs =
       (qs.map (fun th => (tpCountExcl xb yb thy th : ℚ) / (yb.length : ℚ)),
        qs.map (fun th => (fnCountExcl xb yb thy th : ℚ) / (yb.length : ℚ)))) := by
  by_cases h : countHigh yb thy = 0
  · left
    simp [compute_precision_fnr, compute_tp_fn, h]
  · right
    refine ⟨h, ?_, ?_⟩ <;> simp [compute_precision_fnr, compute_tp_fn, h]

theorem count_ratio_mem_unit (c n : Nat) (hc : c ≤ n) (hn : 0 < n) :
    0 ≤ (c : ℚ) / (n : ℚ) ∧ (c : ℚ) / (n : ℚ) ≤ 1 := by
  have hn' : (0 : ℚ) < (n : ℚ) := by exact_mod_cast hn
  constructor
  · positivity
  · rw [div_le_one hn']
    exact_mod_cast hc

theorem zip_countP_le_len {α : Type} (xb yb : List α) (p : α × α → Bool) :
    (xb.zip yb).countP p ≤ yb.length :=
  le_trans (List.countP_le_length p)
    (by rw [List.length_zip]; exact min_le_right _ _)

/-- C10: for every non-empty resampled pair, every element of both sequences
returned by either confusion-count evaluator lies in the closed interval
`[0, 1]`: each count is at most the sample length and the saturation branches
push only the constants `0.0` or `1.0`. -/
theorem curves_in_unit_interval (xb yb : List ℚ) (thy : ℚ) (qs : List ℚ)
    (hx : xb ≠ []) (hy : yb ≠ []) :
    (∀ v ∈ (compute_precision_fnr xb yb thy qs).1, 0 ≤ v ∧ v ≤ 1) ∧
    (∀ v ∈ (compute_precision_fnr xb yb thy qs).2, 0 ≤ v ∧ v ≤ 1) ∧
    (∀ v ∈ (compute_tp_fn xb yb thy qs).1, 0 ≤ v ∧ v ≤ 1) ∧
    (∀ v ∈ (compute_tp_fn xb yb thy qs).2, 0 ≤ v ∧ v ≤ 1) := by
  have hylen : 0 < yb.length := List.length_pos.2 hy
  refine ⟨?_, ?_, ?_, ?_⟩ <;>
    · intro v hv
      simp only [compute_precision_fnr, compute_tp_fn, List.mem_map] at hv
      obtain ⟨th, -, rfl⟩ := hv
      split
      · norm_num
      · exact count_ratio_mem_unit _ _ (zip_countP_le_len xb yb _) hylen

/-- Witness for C10 at a concrete input. -/
theorem curves_in_unit_interval_witness :
    ([1, 1] : List ℚ) ≠ [] ∧ ([0, 1] : List ℚ) ≠ [] ∧
    ((∀ v ∈ (compute_precision_fnr [1, 1] [0, 1] 0 [0]).1, 0 ≤ v ∧ v ≤ 1) ∧
     (∀ v ∈ (compute_precision_fnr [1, 1] [0, 1] 0 [0]).2, 0 ≤ v ∧ v ≤ 1) ∧
     (∀ v ∈ (compute_tp_fn [1, 1] [0, 1] 0 [0]).1, 0 ≤ v ∧ v ≤ 1) ∧
     (∀ v ∈ (compute_tp_fn [1, 1] [0, 1] 0 [0]).2, 0 ≤ v ∧ v ≤ 1)) :=
  ⟨by decide, by decide,
   curves_in_unit_interval [1, 1] [0, 1] 0 [0] (by decide) (by decide)⟩

/-- Modelled from the spec: the Else-branch precision formula of the
confusion-count contract, `precision[th] = count(xb[k]>=th AND yb[k]>=thy)/n`,
counting over all samples with no further exclusion. -/
def specPrecisionCurve (xb yb : List ℚ) (thy : ℚ) (qs : List ℚ) : List ℚ :=
  qs.map (fun th => (tpCount xb yb thy th : ℚ) / (yb.length : ℚ))

/-- Modelled from the spec: the Else-branch FNR formula of the confusion-count
contract, `fnr[th] = count(xb[k]>=th AND yb[k]<thy)/n`, with no further
exclusion. -/
def specFnrCurve (xb yb : List ℚ) (thy : ℚ) (qs : List ℚ) : List ℚ :=
  qs.map (fun th => (fnCount xb yb thy th : ℚ) / (yb.length : ℚ))

/-- C4, counterexample: at `xb=[1,1]`, `yb=[0,1]`, `thy=0`, grid `[0]`, the
high count is nonzero, yet the `compute_tp_fn` variant returns a precision
value that differs from the claimed no-exclusion formula, because it excludes
the sample with `yb[k] = 1.0` from the true-positive count. -/
theorem c4_exclusion_counterexample :
    countHigh [0, 1] 0 ≠ 0 ∧
    (compute_tp_fn [1, 1] [0, 1] 0 [0]).1 ≠
      specPrecisionCurve [1, 1] [0, 1] 0 [0] := by
  constructor
  · decide
  · have h1 : (compute_tp_fn [1, 1] [0, 1] 0 [0]).1 = [1/2] := by
      simp [compute_tp_fn, tpCountExcl, countHigh]
    have h2 : specPrecisionCurve [1, 1] [0, 1] 0 [0] = [1] := by
      simp [specPrecisionCurve, tpCount]
    rw [h1, h2]
    intro hcontra
    rw [List.cons.injEq] at hcontra
    norm_num at hcontra

/-- C4 amended: whenever the high count is nonzero, `compute_precision_fnr`
returns exactly the claimed formulas with no exclusion of samples, while
`compute_tp_fn` returns the analogous formulas in which both counts
additionally require `yb[k] < 1.0`. -/
theorem else_branch_formulas (xb yb : List ℚ) (thy : ℚ) (qs : List ℚ)
    (h : countHigh yb thy ≠ 0) :
    compute_precision_fnr xb yb thy qs =
      (specPrecisionCurve xb yb thy qs, specFnrCurve xb yb thy qs) ∧
    compute_tp_fn xb yb thy qs =
      (qs.map (fun th => (tpCountExcl xb yb thy th : ℚ) / (yb.length : ℚ)),
       qs.map (fun th => (fnCountExcl xb yb thy th : ℚ) / (yb.length : ℚ))) := by
  constructor <;>
    simp [compute_precision_fnr, compute_tp_fn, specPrecisionCurve,
      specFnrCurve, h]

/-- Witness for the amended C4 at a concrete input. -/
theorem else_branch_formulas_witness :
    countHigh [0, 1] 0 ≠ 0 ∧
    (compute_precision_fnr [1, 1] [0, 1] 0 [0] =
       (specPrecisionCurve [1, 1] [0, 1] 0 [0],
        specFnrCurve [1, 1] [0, 1] 0 [0]) ∧
     compute_tp_fn [1, 1] [0, 1] 0 [0] =
       ([0].map (fun th => (tpCountExcl [1, 1] [0, 1] 0 th : ℚ) /
          (([0, 1] : List ℚ).length : ℚ)),
        [0].map (fun th => (fnCountExcl [1, 1] [0, 1] 0 th : ℚ) /
          (([0, 1] : List ℚ).length : ℚ)))) :=
  ⟨by decide, else_branch_formulas [1, 1] [0, 1] 0 [0] (by decide)⟩

/-- Rust `f64::clamp(lo, hi)`: `v.max(lo).min(hi)`. -/
def rclamp (v lo hi : ℚ) : ℚ := min (max v lo) hi

/-- One grid position of the "percentile" arm of `aggregate_curves`: collect
the column, sort it, return the single value for one replicate, else blend the
floor and ceiling order statistics at rank `h = (m-1) * p.clamp(0,1)` by the
fractional part of `h`. -/
def percentilePoint (col : List ℚ) (p : ℚ) : ℚ :=
  let sorted := col.mergeSort (fun a b => decide (a ≤ b))
  let m := sorted.length
  if m = 1 then sorted.getD 0 0
  else
    let h : ℚ := ((m - 1 : ℕ) : ℚ) * rclamp p 0 1
    let i0 : ℕ := (⌊h⌋).toNat
    let i1 : ℕ := (⌈h⌉).toNat
    let frac := h - (i0 : ℚ)
    (1 - frac) * sorted.getD i0 0 + frac * sorted.getD i1 0

/-- `aggregate_curves` from src/src/compute_robust.rs lines 49-75 and
src/analysis/src/metrics/precision.rs lines 32-49 (the two variants are
line-for-line identical).  The source first indexes `curves[0]` (a panic on an
empty collection), then matches the mode string: elementwise mean divided by
the `len` parameter, elementwise percentile, or
`panic!("Unknown aggregation method")`. -/
def aggregate_curves (curves : List (List ℚ)) (method : String) (p : ℚ)
    (len : Nat) : RustResult (List ℚ) :=
  match curves with
  | [] => .panicked "index out of bounds"
  | c0 :: _ =>
    if method = "mean" then
      .ok ((List.range c0.length).map (fun i =>
        (curves.map (fun v => v.getD i 0)).sum / (len : ℚ)))
    else if method = "percentile" then
      .ok ((List.range c0.length).map (fun i =>
        percentilePoint (curves.map (fun v => v.getD i 0)) p))
    else .panicked "Unknown aggregation method"

/-- C3: for every aggregation-mode string other than "mean" and "percentile",
`aggregate_curves` aborts through `panic!("Unknown aggregation method")`; it
does not return a typed, recoverable `UnknownAggregationMode` error value. -/
theorem unknown_mode_panics (c0 : List ℚ) (rest : List (List ℚ))
    (method : String) (p : ℚ) (len : Nat)
    (h1 : method ≠ "mean") (h2 : method ≠ "percentile") :
    aggregate_curves (c0 :: rest) method p len =
      .panicked "Unknown aggregation method" := by
  simp [aggregate_curves, h1, h2]

/-- Witness for C3: the concrete mode string "median" panics. -/
theorem unknown_mode_panics_witness :
    ("median" ≠ "mean" ∧ "median" ≠ "percentile") ∧
    aggregate_curves [[1]] "median" 0 1 =
      .panicked "Unknown aggregation method" :=
  ⟨by decide,
   unknown_mode_panics [1] [] "median" 0 1 (by decide) (by decide)⟩

/-- The exact median of an odd number of values: the middle order statistic of
the sorted values. -/
def medianQ (col : List ℚ) : ℚ :=
  (col.mergeSort (fun a b => decide (a ≤ b))).getD ((col.length - 1) / 2) 0

theorem percentilePoint_half_odd (col : List ℚ)
    (hodd : col.length % 2 = 1) :
    percentilePoint col (1/2) = medianQ col := by
  obtain ⟨k, hk⟩ : ∃ k, col.length = 2 * k + 1 := ⟨col.length / 2, by omega⟩
  have hs : (col.mergeSort (fun a b => decide (a ≤ b))).length = col.length :=
    List.length_mergeSort col
  by_cases h1 : col.length = 1
  · simp [percentilePoint, medianQ, hs, h1]
  · have hrc : rclamp (1/2) 0 1 = 1/2 := by
      rw [rclamp, max_eq_left (by norm_num), min_eq_left (by norm_num)]
    have hsub : col.length - 1 = 2 * k := by omega
    have hcast : ((col.length - 1 : ℕ) : ℚ) * (1/2) = (k : ℚ) := by
      rw [hsub]; push_cast; ring
    have hfloor : (⌊(k : ℚ)⌋).toNat = k := by
      rw [Int.floor_natCast, Int.toNat_natCast]
    have hceil : (⌈(k : ℚ)⌉).toNat = k := by
      rw [Int.ceil_natCast, Int.toNat_natCast]
    have hidx : (col.length - 1) / 2 = k := by omega
    simp only [percentilePoint, medianQ, hs, if_neg h1, hrc, hcast, hfloor,
      hceil, hidx]
    ring

/-- C6: aggregating an odd number of identical-length curves with mode
"percentile" at `p = 0.5` returns, at each grid position, exactly the median
of the replicate values at that position: the rank `(count-1)*0.5` is an
integer, so the floor/ceiling blend degenerates to the middle order
statistic. -/
theorem percentile_half_is_median (c0 : List ℚ) (rest : List (List ℚ))
    (len : Nat) (hodd : (c0 :: rest).length % 2 = 1)
    (hsame : ∀ c ∈ rest, List.length c = c0.length) :
    aggregate_curves (c0 :: rest) "percentile" (1/2) len =
      .ok ((List.range c0.length).map (fun i =>
        medianQ ((c0 :: rest).map (fun v => v.getD i 0)))) := by
  have hred : aggregate_curves (c0 :: rest) "percentile" (1/2) len =
      .ok ((List.range c0.length).map (fun i =>
        percentilePoint ((c0 :: rest).map (fun v => v.getD i 0)) (1/2))) := rfl
  rw [hred]
  congr 1
  apply List.map_congr_left
  intro i _
  apply percentilePoint_half_odd
  rw [List.length_map]
  exact hodd

/-- Witness for C6: three curves of one point each. -/
theorem percentile_half_is_median_witness :
    (([[5], [3], [4]] : List (List ℚ)).length % 2 = 1 ∧
     ∀ c ∈ ([[3], [4]] : List (List ℚ)), List.length c = List.length [(5 : ℚ)]) ∧
    aggregate_curves [[5], [3], [4]] "percentile" (1/2) 3 =
      .ok ((List.range (List.length [(5 : ℚ)])).map (fun i =>
        medianQ (([[5], [3], [4]] : List (List ℚ)).map (fun v => v.getD i 0)))) :=
  ⟨⟨by decide, by decide⟩,
   percentile_half_is_median [5] [[3], [4]] 3 (by decide) (by decide)⟩

/-- The error type of the external interp1d crate as used by the source. -/
inductive InterpError where
  | notUsable
deriving DecidableEq

/-- Modelled from the spec: the query of the external `Interp1d` crate (the
crate is not part of this repository).  Per the spec the algorithm is
piecewise-linear interpolation over x-values sorted ascending: walk the knot
pairs and interpolate linearly inside the first segment whose right endpoint
reaches the query value. -/
def piecewiseLinear : List (ℚ × ℚ) → ℚ → ℚ
  | [], _ => 0
  | [(_, y0)], _ => y0
  | (x0, y0) :: (x1, y1) :: rest, xi =>
    if xi ≤ x1 then y0 + (y1 - y0) * (xi - x0) / (x1 - x0)
    else piecewiseLinear ((x1, y1) :: rest) xi

/-- Modelled from the spec: the domain-usability check of the external
`Interp1d::new_sorted` constructor, which fails with an `InterpError` when the
x-values are not usable as an interpolation domain (fewer than two values,
mismatched lengths, or duplicate/unsorted x-coordinates). -/
def usableDomain (xs ys : List ℚ) : Bool :=
  decide (xs.Chain' (· < ·) ∧ xs.length = ys.length ∧ 2 ≤ xs.length)

/-- `linear_interpolate` from src/src/compute_robust.rs lines 78-94: below or
at `x[0]` it returns `Ok(NaN)` (NaN modeled as `none`); at or above `x[n-1]`
it clamps to `Ok(y[n-1])`; otherwise it queries `Interp1d::new_sorted(x, y)?`.
Out-of-bounds indexing panics. -/
def linear_interpolate (x y : List ℚ) (xi : ℚ) (n : Nat) :
    RustResult (Except InterpError (Option ℚ)) :=
  match x with
  | [] => .panicked "index out of bounds"
  | x0 :: _ =>
    if xi ≤ x0 then .ok (.ok none)
    else if hn : n - 1 < x.length then
      if x.get ⟨n - 1, hn⟩ ≤ xi then
        if hy : n - 1 < y.length then .ok (.ok (some (y.get ⟨n - 1, hy⟩)))
        else .panicked "index out of bounds"
      else
        if usableDomain x y then
          .ok (.ok (some (piecewiseLinear (x.zip y) xi)))
        else .ok (.error .notUsable)
    else .panicked "index out of bounds"

theorem chain'_pair_lt_getD (l : List (ℚ × ℚ)) (i j : Nat)
    (hc : l.Chain' (fun a b => a.1 < b.1)) (hij : i < j) (hj : j < l.length) :
    (l.getD i (0, 0)).1 < (l.getD j (0, 0)).1 := by
  have hi : i < l.length := lt_trans hij hj
  rw [List.getD_eq_getElem l (0, 0) hi, List.getD_eq_getElem l (0, 0) hj]
  have htrans : IsTrans (ℚ × ℚ) (fun a b => a.1 < b.1) :=
    ⟨fun _ _ _ hab hbc => lt_trans hab hbc⟩
  have hpw := (@List.chain'_iff_pairwise _ _ htrans l).1 hc
  exact (List.pairwise_iff_getElem.1 hpw) i j hi hj hij

theorem piecewiseLinear_at_knot :
    ∀ (l : List (ℚ × ℚ)) (k : Nat), l.Chain' (fun a b => a.1 < b.1) →
      k < l.length → 1 ≤ k →
      piecewiseLinear l (l.getD k (0, 0)).1 = (l.getD k (0, 0)).2
  | [], k, _, hk, _ => by simp at hk
  | [a], k, _, hk, hk1 => by simp at hk; omega
  | a :: b :: rest, 1, hchain, _, _ => by
    have hab : a.1 < b.1 := (List.chain'_cons.1 hchain).1
    simp only [List.getD_cons_succ, List.getD_cons_zero, piecewiseLinear]
    rw [if_pos le_rfl]
    have hne : b.1 - a.1 ≠ 0 := sub_ne_zero_of_ne (ne_of_gt hab)
    field_simp
  | a :: b :: rest, k + 2, hchain, hk, _ => by
    have htail : (b :: rest).Chain' (fun a b => a.1 < b.1) :=
      (List.chain'_cons.1 hchain).2
    have hklen : k + 1 < (b :: rest).length := by
      simp only [List.length_cons] at hk ⊢; omega
    have hlt : b.1 < (rest.getD k (0, 0)).1 := by
      have h0 := chain'_pair_lt_getD (b :: rest) 0 (k + 1) htail (by omega)
        hklen
      simpa using h0
    have hrec := piecewiseLinear_at_knot (b :: rest) (k + 1) htail hklen
      (by omega)
    simp only [List.getD_cons_succ] at hrec
    simp only [List.getD_cons_succ, piecewiseLinear]
    rw [if_neg (not_le.2 hlt)]
    exact hrec

/-- C5, counterexample: querying the compute_robust `linear_interpolate` at a
value equal to the first domain x-coordinate returns the NaN sentinel, not
the corresponding y-value. -/
theorem interpolation_left_endpoint_counterexample :
    linear_interpolate [0, 1] [5, 6] 0 2 = .ok (.ok none) ∧
    linear_interpolate [0, 1] [5, 6] 0 2 ≠ .ok (.ok (some 5)) := by
  constructor
  · rfl
  · intro h
    rw [show linear_interpolate [0, 1] [5, 6] 0 2 = .ok (.ok none) from rfl]
      at h
    simp at h

/-- C5 amended: for a strictly ascending domain, querying `linear_interpolate`
at a domain x-coordinate returns the corresponding y-value exactly at every
interior position and at the right endpoint, while at the left endpoint
(`xi = x[0]`) it returns the NaN sentinel instead of `y[0]`. -/
theorem interpolation_exactness_amended (x y : List ℚ) (k : Nat)
    (hsorted : x.Chain' (· < ·)) (hlen : x.length = y.length)
    (hk : k < x.length) (hk1 : 1 ≤ k) :
    linear_interpolate x y (x.getD k 0) x.length =
      .ok (.ok (some (y.getD k 0))) ∧
    linear_interpolate x y (x.getD 0 0) x.length = .ok (.ok none) := by
  have hxlen : 2 ≤ x.length := by omega
  obtain ⟨x0, xtail, rfl⟩ : ∃ x0 xtail, x = x0 :: xtail := by
    cases x with
    | nil => simp at hk
    | cons a l => exact ⟨a, l, rfl⟩
  have hchainQ : ∀ i j : Nat, i < j → j < (x0 :: xtail).length →
      (x0 :: xtail).getD i 0 < (x0 :: xtail).getD j 0 := by
    intro i j hij hj
    have hi : i < (x0 :: xtail).length := lt_trans hij hj
    rw [List.getD_eq_getElem _ 0 hi, List.getD_eq_getElem _ 0 hj]
    have htrans : IsTrans ℚ (· < ·) := ⟨fun _ _ _ => lt_trans⟩
    have hpw := (@List.chain'_iff_pairwise _ _ htrans (x0 :: xtail)).1 hsorted
    exact (List.pairwise_iff_getElem.1 hpw) i j hi hj hij
  constructor
  · have hx0lt : x0 < (x0 :: xtail).getD k 0 := by
      have := hchainQ 0 k hk1 hk
      simpa using this
    have hnot : ¬ (x0 :: xtail).getD k 0 ≤ x0 := not_le.2 hx0lt
    have hn : (x0 :: xtail).length - 1 < (x0 :: xtail).length := by omega
    simp only [linear_interpolate]
    rw [if_neg hnot, dif_pos hn]
    by_cases hend : k = (x0 :: xtail).length - 1
    · have hgetk : (x0 :: xtail).get ⟨(x0 :: xtail).length - 1, hn⟩ =
          (x0 :: xtail).getD k 0 := by
        rw [List.getD_eq_getElem _ 0 hk, List.get_eq_getElem]
        subst hend
        rfl
      rw [if_pos (le_of_eq hgetk)]
      have hy : (x0 :: xtail).length - 1 < y.length := by omega
      rw [dif_pos hy]
      have hgety : y.get ⟨(x0 :: xtail).length - 1, hy⟩ = y.getD k 0 := by
        rw [List.getD_eq_getElem y 0 (by omega), List.get_eq_getElem]
        subst hend
        rfl
      rw [hgety]
    · have hklt : k < (x0 :: xtail).length - 1 := by omega
      have hltend : (x0 :: xtail).getD k 0 <
          (x0 :: xtail).getD ((x0 :: xtail).length - 1) 0 :=
        hchainQ k ((x0 :: xtail).length - 1) hklt hn
      have hgetend : (x0 :: xtail).get ⟨(x0 :: xtail).length - 1, hn⟩ =
          (x0 :: xtail).getD ((x0 :: xtail).length - 1) 0 := by
        rw [List.getD_eq_getElem _ 0 hn, List.get_eq_getElem]
      rw [if_neg (by rw [hgetend]; exact not_le.2 hltend)]
      have husable : usableDomain (x0 :: xtail) y = true := by
        rw [usableDomain, decide_eq_true_eq]
        exact ⟨hsorted, hlen, hxlen⟩
      rw [if_pos husable]
      have hchainz : ((x0 :: xtail).zip y).Chain' (fun a b => a.1 < b.1) := by
        rw [List.chain'_iff_get]
        intro i hi
        rw [List.length_zip] at hi
        have hi2 : i + 1 < (x0 :: xtail).length := by omega
        rw [List.get_eq_getElem, List.get_eq_getElem, List.getElem_zip,
          List.getElem_zip]
        have := hchainQ i (i + 1) (by omega) hi2
        rw [List.getD_eq_getElem _ 0 (by omega : i < (x0 :: xtail).length),
          List.getD_eq_getElem _ 0 hi2] at this
        exact this
      have hkz : k < ((x0 :: xtail).zip y).length := by
        rw [List.length_zip]; omega
      have hzk : ((x0 :: xtail).zip y).getD k (0, 0) =
          ((x0 :: xtail).getD k 0, y.getD k 0) := by
        rw [List.getD_eq_getElem _ _ hkz, List.getElem_zip,
          List.getD_eq_getElem _ 0 hk, List.getD_eq_getElem y 0 (by omega)]
      have hfinal : piecewiseLinear ((x0 :: xtail).zip y)
          ((x0 :: xtail).getD k 0) = y.getD k 0 := by
        have hpl := piecewiseLinear_at_knot ((x0 :: xtail).zip y) k hchainz
          hkz hk1
        rw [hzk] at hpl
        exact hpl
      rw [hfinal]
  · simp only [linear_interpolate, List.getD_cons_zero]
    rw [if_pos le_rfl]

/-- Witness for the amended C5: the interior knot of a three-point domain and
the NaN sentinel at its left endpoint. -/
theorem interpolation_exactness_amended_witness :
    (([0, 1, 2] : List ℚ).Chain' (· < ·) ∧
     ([0, 1, 2] : List ℚ).length = ([5, 6, 7] : List ℚ).length ∧
     1 < ([0, 1, 2] : List ℚ).length) ∧
    (linear_interpolate [0, 1, 2] [5, 6, 7]
       (([0, 1, 2] : List ℚ).getD 1 0) ([0, 1, 2] : List ℚ).length =
       .ok (.ok (some (([5, 6, 7] : List ℚ).getD 1 0))) ∧
     linear_interpolate [0, 1, 2] [5, 6, 7]
       (([0, 1, 2] : List ℚ).getD 0 0) ([0, 1, 2] : List ℚ).length =
       .ok (.ok none)) :=
  ⟨⟨by norm_num [List.chain'_cons], by decide, by decide⟩,
   interpolation_exactness_amended [0, 1, 2] [5, 6, 7] 1
     (by norm_num [List.chain'_cons]) (by decide) (by decide) (by decide)⟩

/-- Option-valued traversal: a Rust loop of fallible steps; `none` models a
panic raised inside the loop (out-of-bounds slice indexing). -/
def tryMap {α β : Type} (f : α → Option β) : List α → Option (List β)
  | [] => some []
  | a :: l =>
    match f a, tryMap f l with
    | some b, some bs => some (b :: bs)
    | _, _ => none

/-- RustResult-valued traversal: a Rust loop whose body can panic; the first
panic aborts the whole loop. -/
def mapRR {α β : Type} (f : α → RustResult β) : List α → RustResult (List β)
  | [] => .ok []
  | a :: l =>
    match f a with
    | .panicked m => .panicked m
    | .ok b =>
      match mapRR f l with
      | .panicked m => .panicked m
      | .ok bs => .ok (b :: bs)

/-- `bootstrap_sample` from src/src/compute_robust.rs lines 96-108 and
src/analysis/src/metrics/precision.rs lines 52-61 (identical): draw `n`
indices `rng.gen_range(0..n)` and push `x[idx]` and `y[idx]`.  The generator
is modeled by a stream `g` of naturals reduced modulo `n` (one uniform draw
from `[0, n)` per loop iteration); indexing outside `x` or `y` is the
out-of-bounds panic, modeled as `none`. -/
def bootstrap_sample (x y : List ℚ) (n : Nat) (g : Nat → Nat) :
    Option (List ℚ × List ℚ) :=
  let idxs := (List.range n).map (fun j => g j % n)
  match tryMap (fun i => x[i]?) idxs, tryMap (fun i => y[i]?) idxs with
  | some xb, some yb => some (xb, yb)
  | _, _ => none

/-- The characters of `pat` occur contiguously inside `s`. -/
def charsContain (s pat : List Char) : Bool :=
  s.tails.any (fun t => pat.isPrefixOf t)

/-- Rust `metric.to_lowercase().contains("adpl")` from both entry points. -/
def metricIsAdpl (metric : String) : Bool :=
  charsContain metric.toLower.data ("adpl".data)

/-- The mode-dependent confidence level of both entry points:
`0.05` for an inverted-scale ("adpl") metric, else `0.95`. -/
def confOf (metric : String) : ℚ :=
  if metricIsAdpl metric then 5/100 else 95/100

/-- The per-quality-threshold loop body of `precision_at_robust`
(src/src/compute_robust.rs lines 130-153): `n_bootstrap` replicates, each
seeded from its replicate index alone (`StdRng::seed_from_u64(i as u64)`,
modeled by the seed-indexed stream family `σ`), resampled by
`bootstrap_sample(x, y, n, ...)` where the source passes `n = quantiles.len()`,
counted, aggregated (precision at `1.0 - conf`, FNR at `conf`), and
interpolated at the target FNR `q`; an interpolation error is converted to the
`(NaN, NaN)` pair.  Returns the `(thx, precision_at_q)` pair. -/
def robustPoint (σ : Nat → Nat → Nat) (x y : List ℚ) (quantiles : List ℚ)
    (n_bootstrap : Nat) (method : String) (conf : ℚ) (q : ℚ) (thy : ℚ) :
    RustResult (Option ℚ × Option ℚ) :=
  let n := quantiles.length
  match tryMap (fun i =>
      (bootstrap_sample x y n (σ i)).map (fun s =>
        compute_precision_fnr s.1 s.2 thy quantiles))
      (List.range n_bootstrap) with
  | none => .panicked "index out of bounds"
  | some curves =>
    match aggregate_curves (curves.map Prod.fst) method (1 - conf) n_bootstrap,
          aggregate_curves (curves.map Prod.snd) method conf n_bootstrap with
    | .ok precision_agg, .ok fnr_agg =>
      match linear_interpolate fnr_agg quantiles q n,
            linear_interpolate fnr_agg precision_agg q n with
      | .ok (.ok th_val), .ok (.ok prec_val) => .ok (th_val, prec_val)
      | .ok (.error _), .ok _ => .ok (none, none)
      | .ok _, .ok (.error _) => .ok (none, none)
      | .panicked m, _ => .panicked m
      | _, .panicked m => .panicked m
    | .panicked m, _ => .panicked m
    | _, .panicked m => .panicked m

/-- `precision_at_robust` from src/src/compute_robust.rs lines 110-156: for
each quality threshold push `(precision_at_q, thx)`; the outputs are the
pushed precision values and the pushed thresholds. -/
def precision_at_robust (σ : Nat → Nat → Nat) (x y : List ℚ)
    (quality_thresholds quantiles : List ℚ) (n_bootstrap : Nat)
    (method metric : String) (q : ℚ) :
    RustResult (List (Option ℚ) × List (Option ℚ)) :=
  match mapRR
      (robustPoint σ x y quantiles n_bootstrap method (confOf metric) q)
      quality_thresholds with
  | .panicked m => .panicked m
  | .ok pts => .ok (pts.map Prod.snd, pts.map Prod.fst)

/-- `linear_interpolate` from src/analysis/src/metrics/precision.rs lines
64-95: prepend the boundary point `(fnr=0, tp=1)`, append `1.0` to the
quantile domain, and run two queries of the external crate over the FNR
values; a failed construction yields the NaN sentinel for that value.
Returns `(th_val, tp_val)`. -/
def linear_interpolate_tp (tp fnr quantiles : List ℚ) (xi : ℚ) :
    Option ℚ × Option ℚ :=
  let p := 1 :: tp
  let f := 0 :: fnr
  let qd := quantiles ++ [1]
  let tp_val := if usableDomain f p then some (piecewiseLinear (f.zip p) xi)
    else none
  let th_val := if usableDomain f qd then some (piecewiseLinear (f.zip qd) xi)
    else none
  (th_val, tp_val)

/-- The per-quality-threshold loop body of `tp_at_robust`
(src/analysis/src/metrics/precision.rs lines 114-129): identical to the
compute_robust variant except that the resample length is `x.len()` and the
interpolation step injects the boundary point and cannot panic. -/
def robustPointTp (σ : Nat → Nat → Nat) (x y : List ℚ) (quantiles : List ℚ)
    (n_bootstrap : Nat) (method : String) (conf : ℚ) (q : ℚ) (thy : ℚ) :
    RustResult (Option ℚ × Option ℚ) :=
  match tryMap (fun i =>
      (bootstrap_sample x y x.length (σ i)).map (fun s =>
        compute_tp_fn s.1 s.2 thy quantiles))
      (List.range n_bootstrap) with
  | none => .panicked "index out of bounds"
  | some curves =>
    match aggregate_curves (curves.map Prod.fst) method (1 - conf) n_bootstrap,
          aggregate_curves (curves.map Prod.snd) method conf n_bootstrap with
    | .ok tp_agg, .ok fn_agg =>
      .ok (linear_interpolate_tp tp_agg fn_agg quantiles q)
    | .panicked m, _ => .panicked m
    | _, .panicked m => .panicked m

/-- `tp_at_robust` from src/analysis/src/metrics/precision.rs lines 98-132. -/
def tp_at_robust (σ : Nat → Nat → Nat) (x y : List ℚ)
    (quantiles quality_thresholds : List ℚ) (n_bootstrap : Nat)
    (method metric : String) (q : ℚ) :
    RustResult (List (Option ℚ) × List (Option ℚ)) :=
  match mapRR
      (robustPointTp σ x y quantiles n_bootstrap method (confOf metric) q)
      quality_thresholds with
  | .panicked m => .panicked m
  | .ok pts => .ok (pts.map Prod.snd, pts.map Prod.fst)

/-- C1: evaluation at the failing input.  `precision_at_robust` passes
`n = quantiles.len()` to `bootstrap_sample`, so with `x = y = [1]` and a
two-point quantile grid the resample has length 2 (not `len(x) = 1`) when the
drawn indices stay in bounds, and the engine panics with an out-of-bounds
index as soon as a draw hits index 1. -/
theorem bootstrap_resample_length_bug :
    bootstrap_sample [1] [1] 2 (fun _ => 0) = some ([1, 1], [1, 1]) ∧
    ([1, 1] : List ℚ).length ≠ ([1] : List ℚ).length ∧
    bootstrap_sample [1] [1] 2 (fun _ => 1) = none ∧
    precision_at_robust (fun _ _ => 1) [1] [1] [0] [0, 1] 1 "mean" "dice" 0 =
      .panicked "index out of bounds" :=
  ⟨rfl, by decide, rfl, rfl⟩

/-- C2: the engine is a deterministic function of its arguments: with the
seed-indexed generator family `σ` fixed (each replicate `i` is seeded from
`i` alone), two calls of the sampler or of either entry point with identical
arguments return identical results. -/
theorem engine_deterministic (σ : Nat → Nat → Nat)
    (x1 x2 y1 y2 qts1 qts2 qs1 qs2 : List ℚ) (nb1 nb2 n1 n2 i1 i2 : Nat)
    (m1 m2 me1 me2 : String) (q1 q2 : ℚ)
    (hx : x1 = x2) (hy : y1 = y2) (hqts : qts1 = qts2) (hqs : qs1 = qs2)
    (hnb : nb1 = nb2) (hn : n1 = n2) (hi : i1 = i2)
    (hm : m1 = m2) (hme : me1 = me2) (hq : q1 = q2) :
    bootstrap_sample x1 y1 n1 (σ i1) = bootstrap_sample x2 y2 n2 (σ i2) ∧
    precision_at_robust σ x1 y1 qts1 qs1 nb1 m1 me1 q1 =
      precision_at_robust σ x2 y2 qts2 qs2 nb2 m2 me2 q2 ∧
    tp_at_robust σ x1 y1 qs1 qts1 nb1 m1 me1 q1 =
      tp_at_robust σ x2 y2 qs2 qts2 nb2 m2 me2 q2 := by
  subst hx; subst hy; subst hqts; subst hqs; subst hnb; subst hn; subst hi
  subst hm; subst hme; subst hq
  exact ⟨rfl, rfl, rfl⟩

/-- Witness for C2 at concrete arguments. -/
theorem engine_deterministic_witness :
    ([1] : List ℚ) = [1] ∧
    (bootstrap_sample [1] [1] 1 ((fun _ _ => 0) 0) =
       bootstrap_sample [1] [1] 1 ((fun _ _ => 0) 0) ∧
     precision_at_robust (fun _ _ => 0) [1] [1] [0] [0] 1 "mean" "dice" 0 =
       precision_at_robust (fun _ _ => 0) [1] [1] [0] [0] 1 "mean" "dice" 0 ∧
     tp_at_robust (fun _ _ => 0) [1] [1] [0] [0] 1 "mean" "dice" 0 =
       tp_at_robust (fun _ _ => 0) [1] [1] [0] [0] 1 "mean" "dice" 0) :=
  ⟨rfl,
   engine_deterministic (fun _ _ => 0) [1] [1] [1] [1] [0] [0] [0] [0]
     1 1 1 1 0 0 "mean" "mean" "dice" "dice" 0 0
     rfl rfl rfl rfl rfl rfl rfl rfl rfl rfl⟩

theorem tryMap_ok_strong {α β : Type} (f : α → Option β) (P : β → Prop) :
    ∀ (l : List α), (∀ a ∈ l, ∃ b, f a = some b ∧ P b) →
      ∃ r, tryMap f l = some r ∧ r.length = l.length ∧ ∀ b ∈ r, P b
  | [], _ => ⟨[], rfl, rfl, by simp⟩
  | a :: l, h => by
    obtain ⟨b, hb, hPb⟩ := h a (by simp)
    obtain ⟨r, hr, hlen, hP⟩ := tryMap_ok_strong f P l
      (fun a ha => h a (by simp [ha]))
    refine ⟨b :: r, ?_, by simp [hlen], ?_⟩
    · simp only [tryMap, hb, hr]
    · intro c hc
      rcases List.mem_cons.1 hc with rfl | hc
      · exact hPb
      · exact hP c hc

theorem bootstrap_sample_ok (x y : List ℚ) (n : Nat) (g : Nat → Nat)
    (hx : n ≤ x.length) (hy : n ≤ y.length) :
    ∃ xb yb, bootstrap_sample x y n g = some (xb, yb) ∧
      xb.length = n ∧ yb.length = n := by
  have hidx : ∀ i ∈ (List.range n).map (fun j => g j % n), i < n := by
    intro i hi
    simp only [List.mem_map, List.mem_range] at hi
    obtain ⟨j, hj, rfl⟩ := hi
    exact Nat.mod_lt _ (by omega)
  obtain ⟨xb, hxb, hxblen, -⟩ := tryMap_ok_strong (fun i => x[i]?)
    (fun _ => True) ((List.range n).map (fun j => g j % n))
    (fun i hi =>
      ⟨_, List.getElem?_eq_getElem (lt_of_lt_of_le (hidx i hi) hx), trivial⟩)
  obtain ⟨yb, hyb, hyblen, -⟩ := tryMap_ok_strong (fun i => y[i]?)
    (fun _ => True) ((List.range n).map (fun j => g j % n))
    (fun i hi =>
      ⟨_, List.getElem?_eq_getElem (lt_of_lt_of_le (hidx i hi) hy), trivial⟩)
  refine ⟨xb, yb, ?_, ?_, ?_⟩
  · simp only [bootstrap_sample, hxb, hyb]
  · simpa using hxblen
  · simpa using hyblen

theorem aggregate_curves_cons_ok (c0 : List ℚ) (rest : List (List ℚ))
    (method : String) (p : ℚ) (len : Nat)
    (hm : method = "mean" ∨ method = "percentile") :
    ∃ r, aggregate_curves (c0 :: rest) method p len = .ok r ∧
      r.length = c0.length := by
  rcases hm with rfl | rfl
  · exact ⟨_, rfl, by simp⟩
  · exact ⟨_, rfl, by simp⟩

theorem linear_interpolate_no_panic (x y : List ℚ) (xi : ℚ) (n : Nat)
    (hx : x ≠ []) (hn : n - 1 < x.length) (hny : n - 1 < y.length) :
    ∃ v, linear_interpolate x y xi n = .ok v := by
  obtain ⟨x0, xt, rfl⟩ : ∃ x0 xt, x = x0 :: xt := by
    cases x with
    | nil => exact absurd rfl hx
    | cons a l => exact ⟨a, l, rfl⟩
  simp only [linear_interpolate]
  by_cases h1 : xi ≤ x0
  · rw [if_pos h1]; exact ⟨_, rfl⟩
  · rw [if_neg h1, dif_pos hn]
    by_cases h2 : (x0 :: xt).get ⟨n - 1, hn⟩ ≤ xi
    · rw [if_pos h2, dif_pos hny]; exact ⟨_, rfl⟩
    · rw [if_neg h2]
      by_cases h3 : usableDomain (x0 :: xt) y = true
      · rw [if_pos h3]; exact ⟨_, rfl⟩
      · rw [if_neg h3]; exact ⟨_, rfl⟩

/-- The value of the per-threshold chain of `precision_at_robust` on its
non-panicking path. -/
def robustPointD (σ : Nat → Nat → Nat) (x y quantiles : List ℚ) (nb : Nat)
    (method : String) (conf q thy : ℚ) : Option ℚ × Option ℚ :=
  match robustPoint σ x y quantiles nb method conf q thy with
  | .ok v => v
  | .panicked _ => (none, none)

/-- The value of the per-threshold chain of `tp_at_robust` on its
non-panicking path. -/
def robustPointTpD (σ : Nat → Nat → Nat) (x y quantiles : List ℚ) (nb : Nat)
    (method : String) (conf q thy : ℚ) : Option ℚ × Option ℚ :=
  match robustPointTp σ x y quantiles nb method conf q thy with
  | .ok v => v
  | .panicked _ => (none, none)

theorem robustPoint_ok (σ : Nat → Nat → Nat) (x y quantiles : List ℚ)
    (nb : Nat) (method : String) (conf q thy : ℚ)
    (hnb : 1 ≤ nb) (hm : method = "mean" ∨ method = "percentile")
    (hq : quantiles ≠ []) (hqx : quantiles.length ≤ x.length)
    (hqy : quantiles.length ≤ y.length) :
    robustPoint σ x y quantiles nb method conf q thy =
      .ok (robustPointD σ x y quantiles nb method conf q thy) := by
  have hqlen : 0 < quantiles.length := List.length_pos.2 hq
  suffices hex : ∃ v, robustPoint σ x y quantiles nb method conf q thy =
      .ok v by
    obtain ⟨v, hv⟩ := hex
    rw [hv, robustPointD, hv]
  obtain ⟨curves, hcurves, hclen, hP⟩ := tryMap_ok_strong
    (fun i => (bootstrap_sample x y quantiles.length (σ i)).map (fun s =>
      compute_precision_fnr s.1 s.2 thy quantiles))
    (fun c => c.1.length = quantiles.length ∧ c.2.length = quantiles.length)
    (List.range nb)
    (fun i _ => by
      obtain ⟨xb, yb, hbs, -, -⟩ :=
        bootstrap_sample_ok x y quantiles.length (σ i) hqx hqy
      refine ⟨compute_precision_fnr xb yb thy quantiles, ?_, ?_, ?_⟩
      · simp [hbs]
      · simp [compute_precision_fnr]
      · simp [compute_precision_fnr])
  cases curves with
  | nil =>
    simp only [List.length_nil, List.length_range] at hclen
    omega
  | cons c ctail =>
    obtain ⟨hP1, hP2⟩ := hP c (by simp)
    obtain ⟨pAgg, hpAgg, hpAggLen⟩ := aggregate_curves_cons_ok (Prod.fst c)
      (List.map Prod.fst ctail) method (1 - conf) nb hm
    obtain ⟨fAgg, hfAgg, hfAggLen⟩ := aggregate_curves_cons_ok (Prod.snd c)
      (List.map Prod.snd ctail) method conf nb hm
    have hfne : fAgg ≠ [] := by
      rw [← List.length_pos, hfAggLen, hP2]
      exact hqlen
    have hn1 : quantiles.length - 1 < fAgg.length := by
      rw [hfAggLen, hP2]; omega
    have hn2 : quantiles.length - 1 < quantiles.length := by omega
    have hn3 : quantiles.length - 1 < pAgg.length := by
      rw [hpAggLen, hP1]; omega
    obtain ⟨v1, hv1⟩ := linear_interpolate_no_panic fAgg quantiles q
      quantiles.length hfne hn1 hn2
    obtain ⟨v2, hv2⟩ := linear_interpolate_no_panic fAgg pAgg q
      quantiles.length hfne hn1 hn3
    cases v1 <;> cases v2 <;>
      · simp only [robustPoint, hcurves, List.map_cons, hpAgg, hfAgg,
          hv1, hv2]
        exact ⟨_, rfl⟩

theorem robustPointTp_ok (σ : Nat → Nat → Nat) (x y quantiles : List ℚ)
    (nb : Nat) (method : String) (conf q thy : ℚ)
    (hnb : 1 ≤ nb) (hm : method = "mean" ∨ method = "percentile")
    (hyx : x.length ≤ y.length) :
    robustPointTp σ x y quantiles nb method conf q thy =
      .ok (robustPointTpD σ x y quantiles nb method conf q thy) := by
  suffices hex : ∃ v, robustPointTp σ x y quantiles nb method conf q thy =
      .ok v by
    obtain ⟨v, hv⟩ := hex
    rw [hv, robustPointTpD, hv]
  obtain ⟨curves, hcurves, hclen, -⟩ := tryMap_ok_strong
    (fun i => (bootstrap_sample x y x.length (σ i)).map (fun s =>
      compute_tp_fn s.1 s.2 thy quantiles))
    (fun _ => True) (List.range nb)
    (fun i _ => by
      obtain ⟨xb, yb, hbs, -, -⟩ :=
        bootstrap_sample_ok x y x.length (σ i) le_rfl hyx
      exact ⟨compute_tp_fn xb yb thy quantiles, by simp [hbs], trivial⟩)
  cases curves with
  | nil =>
    simp only [List.length_nil, List.length_range] at hclen
    omega
  | cons c ctail =>
    obtain ⟨pAgg, hpAgg, -⟩ := aggregate_curves_cons_ok (Prod.fst c)
      (List.map Prod.fst ctail) method (1 - conf) nb hm
    obtain ⟨fAgg, hfAgg, -⟩ := aggregate_curves_cons_ok (Prod.snd c)
      (List.map Prod.snd ctail) method conf nb hm
    simp only [robustPointTp, hcurves, List.map_cons, hpAgg, hfAgg]
    exact ⟨_, rfl⟩

theorem mapRR_ok_of_forall {α β : Type} (f : α → RustResult β) (g : α → β) :
    ∀ (l : List α), (∀ a ∈ l, f a = .ok (g a)) → mapRR f l = .ok (l.map g)
  | [], _ => rfl
  | a :: l, h => by
    simp only [mapRR, h a (by simp),
      mapRR_ok_of_forall f g l (fun a ha => h a (by simp [ha])),
      List.map_cons]

/-- C8, counterexample: with `n_bootstrap = 0` the entry point does not return
any pair of sequences at all: `aggregate_curves` indexes `curves[0]` on an
empty replicate collection and the process aborts. -/
theorem zero_bootstrap_counterexample :
    tp_at_robust (fun _ _ => 0) [1] [1] [0] [0] 0 "mean" "dice" 0 =
      .panicked "index out of bounds" := rfl

/-- C8 amended: whenever the engine does not panic (at least one bootstrap
replicate, a known aggregation mode, and in-bounds resampling: a non-empty
quantile grid no longer than `x` and `y` for the compute_robust variant,
`len(x) ≤ len(y)` for the analysis variant), both entry points return two
sequences aligned to `quality_thresholds`: each output is the elementwise
image of the quality-threshold grid under the per-threshold chain, so both
have length `len(quality_thresholds)` and position `j` is computed from the
`j`-th quality threshold. -/
theorem outputs_aligned (σ : Nat → Nat → Nat) (x y qts quantiles : List ℚ)
    (nb : Nat) (method metric : String) (q : ℚ)
    (hnb : 1 ≤ nb) (hm : method = "mean" ∨ method = "percentile")
    (hq : quantiles ≠ []) (hqx : quantiles.length ≤ x.length)
    (hqy : quantiles.length ≤ y.length) (hyx : x.length ≤ y.length) :
    precision_at_robust σ x y qts quantiles nb method metric q =
      .ok (qts.map (fun thy =>
             (robustPointD σ x y quantiles nb method (confOf metric) q thy).2),
           qts.map (fun thy =>
             (robustPointD σ x y quantiles nb method (confOf metric) q thy).1)) ∧
    tp_at_robust σ x y quantiles qts nb method metric q =
      .ok (qts.map (fun thy =>
             (robustPointTpD σ x y quantiles nb method (confOf metric) q thy).2),
           qts.map (fun thy =>
             (robustPointTpD σ x y quantiles nb method (confOf metric) q thy).1)) ∧
    (qts.map (fun thy =>
       (robustPointD σ x y quantiles nb method (confOf metric) q thy).2)).length
      = qts.length ∧
    (qts.map (fun thy =>
       (robustPointTpD σ x y quantiles nb method (confOf metric) q thy).1)).length
      = qts.length := by
  have h1 : mapRR
      (robustPoint σ x y quantiles nb method (confOf metric) q) qts =
      .ok (qts.map (robustPointD σ x y quantiles nb method (confOf metric) q)) :=
    mapRR_ok_of_forall _ _ qts (fun thy _ =>
      robustPoint_ok σ x y quantiles nb method (confOf metric) q thy
        hnb hm hq hqx hqy)
  have h2 : mapRR
      (robustPointTp σ x y quantiles nb method (confOf metric) q) qts =
      .ok (qts.map (robustPointTpD σ x y quantiles nb method (confOf metric) q)) :=
    mapRR_ok_of_forall _ _ qts (fun thy _ =>
      robustPointTp_ok σ x y quantiles nb method (confOf metric) q thy
        hnb hm hyx)
  refine ⟨?_, ?_, by simp, by simp⟩
  · simp only [precision_at_robust, h1, List.map_map]
    rfl
  · simp only [tp_at_robust, h2, List.map_map]
    rfl

/-- Witness for the amended C8 at concrete arguments. -/
theorem outputs_aligned_witness :
    (1 ≤ 1 ∧ ("mean" = "mean" ∨ "mean" = "percentile") ∧
     ([0] : List ℚ) ≠ [] ∧
     ([0] : List ℚ).length ≤ ([1] : List ℚ).length ∧
     ([0] : List ℚ).length ≤ ([1] : List ℚ).length ∧
     ([1] : List ℚ).length ≤ ([1] : List ℚ).length) ∧
    (precision_at_robust (fun _ _ => 0) [1] [1] [0] [0] 1 "mean" "dice" 0 =
       .ok (([0] : List ℚ).map (fun thy =>
              (robustPointD (fun _ _ => 0) [1] [1] [0] 1 "mean"
                (confOf "dice") 0 thy).2),
            ([0] : List ℚ).map (fun thy =>
              (robustPointD (fun _ _ => 0) [1] [1] [0] 1 "mean"
                (confOf "dice") 0 thy).1)) ∧
     tp_at_robust (fun _ _ => 0) [1] [1] [0] [0] 1 "mean" "dice" 0 =
       .ok (([0] : List ℚ).map (fun thy =>
              (robustPointTpD (fun _ _ => 0) [1] [1] [0] 1 "mean"
                (confOf "dice") 0 thy).2),
            ([0] : List ℚ).map (fun thy =>
              (robustPointTpD (fun _ _ => 0) [1] [1] [0] 1 "mean"
                (confOf "dice") 0 thy).1)) ∧
     (([0] : List ℚ).map (fun thy =>
        (robustPointD (fun _ _ => 0) [1] [1] [0] 1 "mean"
          (confOf "dice") 0 thy).2)).length = ([0] : List ℚ).length ∧
     (([0] : List ℚ).map (fun thy =>
        (robustPointTpD (fun _ _ => 0) [1] [1] [0] 1 "mean"
          (confOf "dice") 0 thy).1)).length = ([0] : List ℚ).length) :=
  ⟨⟨le_rfl, Or.inl rfl, by decide, by decide, by decide, by decide⟩,
   outputs_aligned (fun _ _ => 0) [1] [1] [0] [0] 1 "mean" "dice" 0
     le_rfl (Or.inl rfl) (by decide) (by decide) (by decide) (by decide)⟩

end RobustQA
